import Mathlib

/-
Verification of the atlasbr census-harmonization core.

Shallow embedding of:
  * src/atlasbr/core/logic/census.py   (age / race harmonization handlers)
  * src/atlasbr/infra/adapters/census_ftp.py  (archive resolution, column
    resolution, municipality filtering, fetch control flow)
  * src/atlasbr/core/catalog/census.py (catalog lookup)
  * src/atlasbr/infra/storage/cache.py (zip extraction safety check)
  * the areal-weighted interpolation step (external tobler dependency,
    modelled from the spec).

Numeric cell values are rationals; a pandas NaN / missing column is `none`.
-/

namespace AtlasBR

/-- A row of a DataFrame: column name to value; `none` is NaN or an absent
column (the handlers treat both as 0 via `fillna(0)` / `df.get(c, 0)`). -/
def Row : Type := String → Option ℚ

/-- Value of column `c` with NaN/missing read as 0. -/
def Row.val (row : Row) (c : String) : ℚ := (row c).getD 0

/-- Python `f"{n:0{w}d}"`: decimal digits of `n` left-padded with zeros to
width `w`. -/
def pad (w : Nat) (n : Nat) : String :=
  let s := toString n
  String.mk (List.replicate (w - s.length) '0') ++ s

/-- Python `range(start, stop, step)` for positive `step`. -/
def rangeStep (start stop step : Nat) : List Nat :=
  List.range' start ((stop - start + step - 1) / step) step

/-- `_sum_cols` from `core/logic/census.py`: sums the columns
`pattern + f"{i:0{width}d}"` for `i in range(start, stop, step)`; a column
missing from the frame contributes 0. -/
def sumCols (row : Row) (pattern : String) (start stop width step : Nat) : ℚ :=
  ((rangeStep start stop step).map (fun i => row.val (pattern ++ pad width i))).sum

/-- The four canonical age brackets produced by the age handlers.
`age_0_14 = none` models the `np.nan` marker emitted when no
total-population column is available (or the total is itself NaN). -/
structure AgeBrackets where
  age_0_14 : Option ℚ
  age_15_19 : ℚ
  age_20_64 : ℚ
  age_65p : ℚ
  deriving DecidableEq

/-- `_handle_age_2010` from `core/logic/census.py`: after `fillna(0)`,
`age_0_14 = df.get("v022", 0) + _sum_cols(df, "v", 35, 49)` and the other
three brackets are direct sums of fixed ranges. -/
def handle_age_2010 (row : Row) : AgeBrackets :=
  { age_0_14 := some (row.val "v022" + sumCols row "v" 35 49 3 1)
    age_15_19 := sumCols row "v" 49 54 3 1
    age_20_64 := sumCols row "v" 54 99 3 1
    age_65p := sumCols row "v" 99 135 3 1 }

/-- `_handle_age_2022` from `core/logic/census.py`, the two recognised
strategies; `none` models the pass-through branch for any other strategy.
The residual `age_0_14 = (total - adults_elderly).clip(lower=0)` is taken
only when the strategy's total-population column holds a number; a present
column holding NaN propagates NaN through `clip`, which the `Option`
conflation renders as `none`, as does the `np.nan` marker of the
no-total-column branch. -/
def handle_age_2022 (strategy : String) (row : Row) : Option AgeBrackets :=
  if strategy = "bd_table" then
    let b15 : ℚ := row.val "V00644"
    let b20 : ℚ := sumCols row "V" 645 654 5 1
    let b65 : ℚ := sumCols row "V" 654 657 5 1
    let res : Option ℚ := (row "pessoas").map (fun p => max 0 (p - (b15 + b20 + b65)))
    some { age_0_14 := res, age_15_19 := b15, age_20_64 := b20, age_65p := b65 }
  else if strategy = "ftp_csv" then
    let b15 : ℚ := row.val "V00644"
    let b20 : ℚ := sumCols row "V" 649 675 5 5
    let b65 : ℚ := row.val "V00679"
    let res : Option ℚ := (row "habitantes").map (fun p => max 0 (p - (b15 + b20 + b65)))
    some { age_0_14 := res, age_15_19 := b15, age_20_64 := b20, age_65p := b65 }
  else
    none

/-- Concrete 2010 age row: a total-population column (`habitantes` = 10)
and the declared sub-column `v022` = 1; every other column absent. -/
def exRowAge2010 : Row := fun c =>
  if c = "habitantes" then some 10 else if c = "v022" then some 1 else none

lemma sumCols_nonneg (row : Row) (hnn : ∀ c, 0 ≤ (row c).getD 0)
    (pattern : String) (start stop width step : Nat) :
    0 ≤ sumCols row pattern start stop width step := by
  apply List.sum_nonneg
  intro x hx
  simp only [List.mem_map] at hx
  obtain ⟨i, _, rfl⟩ := hx
  exact hnn _

end AtlasBR

namespace AtlasBR

/-- C1 (counterexample): `_handle_age_2010`, applied to a table that contains
the total-population column (`habitantes` = 10) and the declared sub-column
`v022` = 1, returns `age_0_14 = 1`, which is not the clamped residual
`max 0 (total - (age_15_19 + age_20_64 + age_65p)) = 10`: the 2010 handler
computes 0-14 as a direct sum, not as a residual. -/
theorem age_2010_not_residual :
    (handle_age_2010 exRowAge2010).age_0_14
      ≠ some (max 0 ((exRowAge2010 "habitantes").getD 0 -
          ((handle_age_2010 exRowAge2010).age_15_19 +
           (handle_age_2010 exRowAge2010).age_20_64 +
           (handle_age_2010 exRowAge2010).age_65p))) := by
  simp +decide [handle_age_2010, exRowAge2010, Row.val, sumCols, rangeStep,
    List.range']

/-- C1 (amended): for `_handle_age_2022` (both strategies), whenever the
strategy's total-population column is present, `age_0_14` is the clamped
residual `max 0 (total - (age_15_19 + age_20_64 + age_65p))` and the three
other brackets are direct sums of their fixed sub-column sets;
`_handle_age_2010` instead computes `age_0_14` as the direct sum
`v022 + (v035 + ... + v048)`; and for any input whose cell values are all
non-negative, none of the four returned brackets of any handler is negative
(the clamped residual is non-negative for arbitrary inputs). -/
theorem age_bracket_residual_and_nonneg (row : Row)
    (hnn : ∀ c, 0 ≤ (row c).getD 0) :
    (∀ p, row "pessoas" = some p →
      ∃ b, handle_age_2022 "bd_table" row = some b ∧
        b.age_15_19 = row.val "V00644" ∧
        b.age_20_64 = sumCols row "V" 645 654 5 1 ∧
        b.age_65p = sumCols row "V" 654 657 5 1 ∧
        b.age_0_14 = some (max 0 (p - (b.age_15_19 + b.age_20_64 + b.age_65p)))) ∧
    (∀ p, row "habitantes" = some p →
      ∃ b, handle_age_2022 "ftp_csv" row = some b ∧
        b.age_15_19 = row.val "V00644" ∧
        b.age_20_64 = sumCols row "V" 649 675 5 5 ∧
        b.age_65p = row.val "V00679" ∧
        b.age_0_14 = some (max 0 (p - (b.age_15_19 + b.age_20_64 + b.age_65p)))) ∧
    ((handle_age_2010 row).age_0_14
        = some (row.val "v022" + sumCols row "v" 35 49 3 1)) ∧
    ((∀ q, (handle_age_2010 row).age_0_14 = some q → 0 ≤ q) ∧
      0 ≤ (handle_age_2010 row).age_15_19 ∧
      0 ≤ (handle_age_2010 row).age_20_64 ∧
      0 ≤ (handle_age_2010 row).age_65p) ∧
    (∀ s b, handle_age_2022 s row = some b →
      (∀ q, b.age_0_14 = some q → 0 ≤ q) ∧
      0 ≤ b.age_15_19 ∧ 0 ≤ b.age_20_64 ∧ 0 ≤ b.age_65p) := by
  have hval : ∀ c, 0 ≤ row.val c := fun c => hnn c
  refine ⟨?_, ?_, rfl, ?_, ?_⟩
  · intro p hp
    refine ⟨⟨(row "pessoas").map (fun t => max 0 (t - (row.val "V00644" +
        sumCols row "V" 645 654 5 1 + sumCols row "V" 654 657 5 1))),
        row.val "V00644", sumCols row "V" 645 654 5 1,
        sumCols row "V" 654 657 5 1⟩,
      by simp +decide [handle_age_2022], rfl, rfl, rfl, ?_⟩
    simp only [hp, Option.map_some']
  · intro p hp
    refine ⟨⟨(row "habitantes").map (fun t => max 0 (t - (row.val "V00644" +
        sumCols row "V" 649 675 5 5 + row.val "V00679"))),
        row.val "V00644", sumCols row "V" 649 675 5 5, row.val "V00679"⟩,
      by simp +decide [handle_age_2022], rfl, rfl, rfl, ?_⟩
    simp only [hp, Option.map_some']
  · refine ⟨?_, ?_, ?_, ?_⟩
    · intro q hq
      simp only [handle_age_2010, Option.some.injEq] at hq
      subst hq
      exact add_nonneg (hval _) (sumCols_nonneg row hnn _ _ _ _ _)
    · exact sumCols_nonneg row hnn _ _ _ _ _
    · exact sumCols_nonneg row hnn _ _ _ _ _
    · exact sumCols_nonneg row hnn _ _ _ _ _
  · intro s b hb
    unfold handle_age_2022 at hb
    split_ifs at hb
    · rw [Option.some.injEq] at hb
      subst hb
      refine ⟨?_, hval _, sumCols_nonneg row hnn _ _ _ _ _,
        sumCols_nonneg row hnn _ _ _ _ _⟩
      intro q hq
      simp only at hq
      cases hrow : row "pessoas" with
      | none => rw [hrow] at hq; simp at hq
      | some p =>
        rw [hrow] at hq
        simp only [Option.map_some', Option.some.injEq] at hq
        rw [← hq]
        exact le_max_left 0 _
    · rw [Option.some.injEq] at hb
      subst hb
      refine ⟨?_, hval _, sumCols_nonneg row hnn _ _ _ _ _, hval _⟩
      intro q hq
      simp only at hq
      cases hrow : row "habitantes" with
      | none => rw [hrow] at hq; simp at hq
      | some p =>
        rw [hrow] at hq
        simp only [Option.map_some', Option.some.injEq] at hq
        rw [← hq]
        exact le_max_left 0 _

/-- C1 (witness): the amended theorem applied to a concrete 2022 warehouse
row with `pessoas` = 10, `V00644` = 2, `V00650` = 3, `V00655` = 1: the
residual bracket is `max 0 (10 - 6) = 4` and every bracket is
non-negative. -/
theorem age_bracket_residual_and_nonneg_witness :
    ∃ b, handle_age_2022 "bd_table"
        (fun c => if c = "pessoas" then some 10 else if c = "V00644" then some 2
          else if c = "V00650" then some 3 else if c = "V00655" then some 1
          else none) = some b ∧
      b.age_0_14 = some 4 ∧ b.age_15_19 = 2 ∧ b.age_20_64 = 3 ∧ b.age_65p = 1 := by
  have h := age_bracket_residual_and_nonneg
    (fun c => if c = "pessoas" then some 10 else if c = "V00644" then some 2
      else if c = "V00650" then some 3 else if c = "V00655" then some 1
      else none)
    (by intro c; dsimp only; split_ifs <;> norm_num)
  obtain ⟨h1, -, -, -, -⟩ := h
  obtain ⟨b, hb, h15, h20, h65, h014⟩ := h1 10 (by decide)
  refine ⟨b, hb, ?_, ?_, ?_, ?_⟩
  · rw [h014, h15, h20, h65]
    simp +decide [Row.val, sumCols, rangeStep, List.range']
    norm_num
  · rw [h15]; simp +decide [Row.val]
  · rw [h20]; simp +decide [sumCols, rangeStep, List.range', Row.val]
  · rw [h65]; simp +decide [sumCols, rangeStep, List.range', Row.val]

/-- A pandas/numpy float-valued cell as produced by the race-imputation
division: a finite value, a signed infinity (x/0 with x nonzero), or NaN
(0/0). -/
inductive PVal where
  | num (q : ℚ)
  | posInf
  | negInf
  | nan
  deriving DecidableEq

/-- numpy division under `errstate(divide=ignore, invalid=ignore)`:
`0/0` is NaN, `x/0` is a signed infinity, otherwise exact division. -/
def pdiv (a b : ℚ) : PVal :=
  if b = 0 then (if a = 0 then .nan else if 0 < a then .posInf else .negInf)
  else .num (a / b)

/-- pandas `fillna(0)`: replaces NaN (only) by 0; infinities are kept. -/
def PVal.fillna0 : PVal → PVal
  | .nan => .num 0
  | v => v

/-- numpy multiplication of a finite float by a possibly non-finite one. -/
def PVal.smul (q : ℚ) : PVal → PVal
  | .num r => .num (q * r)
  | .posInf => if q = 0 then .nan else if 0 < q then .posInf else .negInf
  | .negInf => if q = 0 then .nan else if 0 < q then .negInf else .posInf
  | .nan => .nan

/-- numpy addition of a finite float and a possibly non-finite one. -/
def PVal.addQ (q : ℚ) : PVal → PVal
  | .num r => .num (q + r)
  | .posInf => .posInf
  | .negInf => .negInf
  | .nan => .nan

/-- A table keyed by sector id (`id_setor_censitario` index): list of
(sector id, row). -/
abbrev Table : Type := List (String × Row)

/-- All cell values of the table are non-negative (NaN/missing read as 0,
matching the handler's initial `fillna(0)`). -/
def Table.Nonneg (tbl : Table) : Prop :=
  ∀ e ∈ tbl, ∀ c, 0 ≤ ((e.2 : Row) c).getD 0

/-- `df["pop_15p"] = _sum_cols(df, "V", 644, 657, width=5)` from
`_handle_race_2022`. -/
def pop15p (row : Row) : ℚ := sumCols row "V" 644 657 5 1

/-- `df["age_0_14"] = (df["pessoas"] - df["pop_15p"]).clip(lower=0)` from
`_handle_race_2022`. -/
def age014 (row : Row) : ℚ := max 0 (row.val "pessoas" - pop15p row)

/-- `df[f"race_{race}_15p"]` for the race of index `i`:
sum of the columns `V{c:05d}` for `c in range(657 + i, 717, 5)`. -/
def race15p (i : Nat) (row : Row) : ℚ := sumCols row "V" (657 + i) 717 5 5

/-- `df["id_mun"] = idx.astype(str).str.slice(0, 7)`. -/
def muniOf (id : String) : String := id.take 7

/-- Municipality-level 15+ population total:
`muni_sums = df.groupby("id_mun")[...].sum()` applied to `pop_15p`. -/
def muniPopSum (tbl : Table) (m : String) : ℚ :=
  ((tbl.filter (fun e => muniOf e.1 = m)).map (fun e => pop15p e.2)).sum

/-- Municipality-level 15+ total for the race of index `i`. -/
def muniRaceSum (tbl : Table) (m : String) (i : Nat) : ℚ :=
  ((tbl.filter (fun e => muniOf e.1 = m)).map (fun e => race15p i e.2)).sum

/-- `muni_ratios = muni_sums[race_cols].div(muni_sums["pop_15p"]).fillna(0)`:
the per-municipality share of race `i` in the 15+ population, with
pandas/numpy division semantics and NaN (only) replaced by 0. -/
def muniShare (tbl : Table) (m : String) (i : Nat) : PVal :=
  PVal.fillna0 (pdiv (muniRaceSum tbl m i) (muniPopSum tbl m))

/-- `df[f"cor_{race}"] = df[race_15p_col] + (df["age_0_14"] * ratio_series)`
from `_handle_race_2022` (warehouse path): imputed total race population of
one sector. -/
def corRace (tbl : Table) (id : String) (row : Row) (i : Nat) : PVal :=
  PVal.addQ (race15p i row) (PVal.smul (age014 row) (muniShare tbl (muniOf id) i))

/-- One-sector row: `pessoas` = 7, `V00657` = 5 (a 15+ race count), and
every 15+ age column `V00644..V00656` absent (hence 0). -/
def exRaceRow : Row := fun c =>
  if c = "pessoas" then some 7 else if c = "V00657" then some 5 else none

/-- The counterexample table for the race share claim. -/
def exRaceTable : Table := [("350000000000001", exRaceRow)]

lemma muniPopSum_nonneg (tbl : Table) (hnn : Table.Nonneg tbl) (m : String) :
    0 ≤ muniPopSum tbl m := by
  apply List.sum_nonneg
  intro x hx
  simp only [List.mem_map] at hx
  obtain ⟨e, he, rfl⟩ := hx
  exact sumCols_nonneg e.2 (hnn e (List.mem_of_mem_filter he)) _ _ _ _ _

lemma muniRaceSum_nonneg (tbl : Table) (hnn : Table.Nonneg tbl)
    (m : String) (i : Nat) : 0 ≤ muniRaceSum tbl m i := by
  apply List.sum_nonneg
  intro x hx
  simp only [List.mem_map] at hx
  obtain ⟨e, he, rfl⟩ := hx
  exact sumCols_nonneg e.2 (hnn e (List.mem_of_mem_filter he)) _ _ _ _ _

/-- C2 (counterexample): on a one-sector table of non-negative values
(`pessoas` = 7, `V00657` = 5, all 15+ age columns zero), the municipality
"3500000" has a zero 15+ population total, yet the share of the first race
is `+inf`, not zero: `muni_sums.div` yields `5 / 0 = inf` and `fillna(0)`
replaces only NaN.  The imputed sector value `cor_branca` is `+inf` as
well. -/
theorem race_share_zero_muni_counterexample :
    Table.Nonneg exRaceTable ∧
    muniPopSum exRaceTable "3500000" = 0 ∧
    muniShare exRaceTable "3500000" 0 ≠ PVal.num 0 ∧
    muniShare exRaceTable "3500000" 0 = PVal.posInf ∧
    corRace exRaceTable "350000000000001" exRaceRow 0 = PVal.posInf := by
  have hnn : Table.Nonneg exRaceTable := by
    intro e he c
    simp only [exRaceTable, List.mem_singleton] at he
    subst he
    simp only [exRaceRow]
    split_ifs <;> norm_num
  have hpop : muniPopSum exRaceTable "3500000" = 0 := by
    simp +decide [muniPopSum, muniOf, exRaceTable, exRaceRow, pop15p,
      sumCols, rangeStep, List.range', Row.val]
  have hrace : muniRaceSum exRaceTable "3500000" 0 = 5 := by
    simp +decide [muniRaceSum, muniOf, exRaceTable, exRaceRow, race15p,
      sumCols, rangeStep, List.range', Row.val]
  have hshare : muniShare exRaceTable "3500000" 0 = PVal.posInf := by
    rw [muniShare, hpop, hrace]
    norm_num [pdiv, PVal.fillna0]
  refine ⟨hnn, hpop, by rw [hshare]; exact fun h => PVal.noConfusion h,
    hshare, ?_⟩
  have hmuni : muniOf "350000000000001" = "3500000" := by decide
  rw [corRace, hmuni, hshare]
  have hage : age014 exRaceRow = 7 := by
    rw [age014]
    have h1 : exRaceRow.val "pessoas" = 7 := by simp +decide [Row.val, exRaceRow]
    have h2 : pop15p exRaceRow = 0 := by
      simp +decide [pop15p, exRaceRow, sumCols, rangeStep, List.range', Row.val]
    rw [h1, h2]
    norm_num
  rw [hage]
  norm_num [PVal.smul, PVal.addQ]

/-- C2 (amended): for every table of non-negative values keyed by sector
ids, each imputed column value is the sector's 15+ race total plus the
clamped child residual `max 0 (pessoas - pop_15p)` times the
municipality-level share of that race (municipality = first 7 digits of
the sector id); a municipality whose 15+ total AND per-race 15+ totals are
zero gets a zero share with no division error (0/0 is NaN, filled with 0),
a municipality with a nonzero 15+ total gets a finite non-negative share,
and every sector whose municipality satisfies "zero 15+ total implies zero
race total" (true of all real data, where race counts are part of the 15+
population) gets a finite non-negative imputed total. -/
theorem race_imputation_amended (tbl : Table) (hnn : Table.Nonneg tbl) :
    (∀ id row i, corRace tbl id row i =
        PVal.addQ (race15p i row)
          (PVal.smul (max 0 (row.val "pessoas" - pop15p row))
            (muniShare tbl (id.take 7) i))) ∧
    (∀ m i, muniPopSum tbl m = 0 → muniRaceSum tbl m i = 0 →
        muniShare tbl m i = PVal.num 0) ∧
    (∀ m i, muniPopSum tbl m ≠ 0 →
        ∃ q, muniShare tbl m i = PVal.num q ∧ 0 ≤ q) ∧
    (∀ e ∈ tbl, ∀ i,
        (muniPopSum tbl (muniOf e.1) = 0 → muniRaceSum tbl (muniOf e.1) i = 0) →
        ∃ q, corRace tbl e.1 e.2 i = PVal.num q ∧ 0 ≤ q) := by
  have hshare_zero : ∀ m i, muniPopSum tbl m = 0 → muniRaceSum tbl m i = 0 →
      muniShare tbl m i = PVal.num 0 := by
    intro m i hp hr
    rw [muniShare, hp, hr]
    norm_num [pdiv, PVal.fillna0]
  have hshare_fin : ∀ m i, muniPopSum tbl m ≠ 0 →
      ∃ q, muniShare tbl m i = PVal.num q ∧ 0 ≤ q := by
    intro m i hp
    refine ⟨muniRaceSum tbl m i / muniPopSum tbl m, ?_, ?_⟩
    · rw [muniShare, pdiv, if_neg hp]
      rfl
    · exact div_nonneg (muniRaceSum_nonneg tbl hnn m i)
        (muniPopSum_nonneg tbl hnn m)
  refine ⟨fun id row i => rfl, hshare_zero, hshare_fin, ?_⟩
  intro e he i himp
  have hrow : ∀ c, 0 ≤ ((e.2 : Row) c).getD 0 := hnn e he
  have hrace : 0 ≤ race15p i e.2 := sumCols_nonneg e.2 hrow _ _ _ _ _
  have hage : 0 ≤ age014 e.2 := le_max_left 0 _
  by_cases hp : muniPopSum tbl (muniOf e.1) = 0
  · have hs := hshare_zero (muniOf e.1) i hp (himp hp)
    refine ⟨race15p i e.2, ?_, hrace⟩
    rw [corRace, hs]
    simp only [PVal.smul, PVal.addQ, mul_zero, add_zero]
  · obtain ⟨q, hq, hq0⟩ := hshare_fin (muniOf e.1) i hp
    refine ⟨race15p i e.2 + age014 e.2 * q, ?_, ?_⟩
    · rw [corRace, hq]
      simp only [PVal.smul, PVal.addQ]
    · exact add_nonneg hrace (mul_nonneg hage hq0)

/-- A one-sector table for the witness: id `355030800000001`,
`pessoas` = 10, `V00644` = 4 (15+ population), `V00657` = 3 (race count). -/
def exRaceRow2 : Row := fun c =>
  if c = "pessoas" then some 10 else if c = "V00644" then some 4
  else if c = "V00657" then some 3 else none

/-- The witness table for the amended race claim. -/
def exRaceTable2 : Table := [("355030800000001", exRaceRow2)]

/-- C2 (witness): the amended theorem applied to the concrete one-sector
table: the municipality 15+ total is 4 (nonzero), the share is the finite
non-negative number 3/4, and the imputed sector total is finite and
non-negative. -/
theorem race_imputation_amended_witness :
    Table.Nonneg exRaceTable2 ∧
    muniPopSum exRaceTable2 "3550308" ≠ 0 ∧
    (∃ q, muniShare exRaceTable2 "3550308" 0 = PVal.num q ∧ 0 ≤ q) ∧
    (∃ q, corRace exRaceTable2 "355030800000001" exRaceRow2 0 = PVal.num q ∧
      0 ≤ q) := by
  have hnn : Table.Nonneg exRaceTable2 := by
    intro e he c
    simp only [exRaceTable2, List.mem_singleton] at he
    subst he
    simp only [exRaceRow2]
    split_ifs <;> norm_num
  have hpop : muniPopSum exRaceTable2 "3550308" = 4 := by
    simp +decide [muniPopSum, muniOf, exRaceTable2, exRaceRow2, pop15p,
      sumCols, rangeStep, List.range', Row.val]
  have hne : muniPopSum exRaceTable2 "3550308" ≠ 0 := by
    rw [hpop]; norm_num
  have h := race_imputation_amended exRaceTable2 hnn
  refine ⟨hnn, hne, h.2.2.1 "3550308" 0 hne, ?_⟩
  have hmem : ("355030800000001", exRaceRow2) ∈ exRaceTable2 :=
    List.mem_singleton.mpr rfl
  have hmuni : muniOf "355030800000001" = "3550308" := by decide
  have := h.2.2.2 ("355030800000001", exRaceRow2) hmem 0
    (by rw [hmuni]; intro hc; exact absurd hc hne)
  exact this

/- ----------------------------------------------------------------
   census_ftp.py: archive resolution.
   Python string operations are modelled code-point-wise on the
   character list underlying a `String` (all inputs are ASCII).
   ---------------------------------------------------------------- -/

/-- Python `str.lower()`, code-point-wise. -/
def strLower (s : String) : String := String.mk (s.data.map Char.toLower)

/-- Python `str.upper()`, code-point-wise. -/
def strUpper (s : String) : String := String.mk (s.data.map Char.toUpper)

/-- Python string `<` (lexicographic by code point), as a Bool. -/
def strLtB (a b : String) : Bool := decide (List.Lex (· < ·) a.data b.data)

/-- Python `str.rstrip("/")`. -/
def rstripSlash (s : String) : String :=
  String.mk ((s.data.reverse.dropWhile (fun c => c = '/')).reverse)

/-- Split a character list at every occurrence of the separator `c`. -/
def splitChar (c : Char) : List Char → List (List Char)
  | [] => [[]]
  | x :: xs =>
    match splitChar c xs with
    | [] => if x = c then [[], []] else [[x]]
    | y :: ys => if x = c then [] :: y :: ys else (x :: y) :: ys

/-- `PurePosixPath(f).name`: the last path component, with empty and `.`
components dropped. -/
def posixName (f : String) : String :=
  String.mk
    ((((splitChar '/' f.data).filter
        (fun s => !(s.isEmpty || s == ['.']))).getLast?).getD [])

/-- The strict match `re.fullmatch(rf"{stem}_(\d{8})\.zip", name, IGNORECASE)`
of `_pick_zip_for_stem`: returns the 8-digit date token when the (lowered)
name is the lowered stem, an underscore, 8 digits, and `.zip`. -/
def stemDateMatch (stem name : String) : Option String :=
  let nl := (strLower name).data
  let sl := (strLower stem).data
  if nl.length = sl.length + 13 ∧
      nl.take (sl.length + 1) = sl ++ ['_'] ∧
      ((nl.drop (sl.length + 1)).take 8).all Char.isDigit ∧
      nl.drop (sl.length + 9) = ['.', 'z', 'i', 'p']
  then some (String.mk ((name.data.drop (sl.length + 1)).take 8))
  else none

/-- One file's contribution to the strict candidate list of
`_pick_zip_for_stem`: a dated match contributes its date token, an exact
`STEM.zip` match contributes the sentinel token `"00000000"`. -/
def datedCandidate (stem f : String) : List (String × String) :=
  let name := posixName f
  match stemDateMatch stem name with
  | some d => [(d, name)]
  | none =>
    if (strLower name).data = (strLower stem).data ++ ['.', 'z', 'i', 'p']
    then [("00000000", name)] else []

/-- The strict candidate list, in file order. -/
def primaryFor (stem : String) (files : List String) : List (String × String) :=
  files.foldr (fun f acc => datedCandidate stem f ++ acc) []

/-- Whether the pattern occurs as a contiguous subsequence. -/
def containsSeq (pat l : List Char) : Bool :=
  (List.range (l.length + 1)).any (fun i => pat.isPrefixOf (l.drop i))

/-- A lowered name ending in `capital_<8 digits>.zip`: the common tail of
the two fuzzy SP regexes; returns the date token. -/
def tailCapitalDate (nl : List Char) : Option (List Char) :=
  let n := nl.length
  if 20 ≤ n ∧ nl.drop (n - 4) = ['.', 'z', 'i', 'p'] ∧
      ((nl.drop (n - 12)).take 8).all Char.isDigit ∧
      (nl.drop (n - 20)).take 8 = ['c', 'a', 'p', 'i', 't', 'a', 'l', '_']
  then some ((nl.drop (n - 12)).take 8) else none

/-- `re.fullmatch(r"SP_.*Capital_(\d{8})\.zip", name, IGNORECASE)` with the
additional `"EXCETO" not in name.upper()` guard. -/
def spCapitalMatch (name : String) : Option String :=
  let nl := (strLower name).data
  match tailCapitalDate nl with
  | some d =>
    if nl.take 3 = ['s', 'p', '_'] ∧ 23 ≤ nl.length ∧
        containsSeq "exceto".data nl = false
    then some (String.mk d) else none
  | none => none

/-- `re.fullmatch(r"SP_Exceto.*Capital_(\d{8})\.zip", name, IGNORECASE)`. -/
def spExcetoMatch (name : String) : Option String :=
  let nl := (strLower name).data
  match tailCapitalDate nl with
  | some d =>
    if nl.take 9 = "sp_exceto".data ∧ 29 ≤ nl.length
    then some (String.mk d) else none
  | none => none

/-- The SP-capital fuzzy fallback candidates, in file order. -/
def spCapitalFold (files : List String) : List (String × String) :=
  files.foldr (fun f acc =>
    (match spCapitalMatch (posixName f) with
     | some d => [(d, posixName f)]
     | none => []) ++ acc) []

/-- The SP-interior fuzzy fallback candidates, in file order. -/
def spExcetoFold (files : List String) : List (String × String) :=
  files.foldr (fun f acc =>
    (match spExcetoMatch (posixName f) with
     | some d => [(d, posixName f)]
     | none => []) ++ acc) []

/-- The candidate list after the first fuzzy fallback of
`_pick_zip_for_stem` (tried only when the strict matches are empty and the
stem is `SP_Capital`). -/
def cand1For (stem : String) (files : List String) : List (String × String) :=
  if primaryFor stem files = [] ∧ strUpper stem = "SP_CAPITAL"
  then spCapitalFold files
  else primaryFor stem files

/-- The full candidate list of `_pick_zip_for_stem`: the strict matches,
then (only when those are empty) the documented fuzzy fallbacks for the
two SP stems. -/
def candidatesFor (stem : String) (files : List String) : List (String × String) :=
  if cand1For stem files = [] ∧ (strUpper stem).data.take 9 = "SP_EXCETO".data
  then spExcetoFold files
  else cand1For stem files

/-- Python `max(candidates, key=lambda x: x[0])`: the first candidate whose
date token is not exceeded by any later one. -/
def pickMaxBy (c : String × String) (cs : List (String × String)) :
    String × String :=
  cs.foldl (fun best x => if strLtB best.1 x.1 then x else best) c

/-- `_pick_zip_for_stem` from `census_ftp.py`: resolve the candidate list,
fail when it is empty, otherwise return
`dir_url.rstrip("/") + "/" + fname` for the latest-dated candidate. -/
def pick_zip_for_stem (dir_url stem : String) (files : List String) :
    Except String String :=
  match candidatesFor stem files with
  | [] => .error stem
  | c :: cs => .ok (rstripSlash dir_url ++ "/" ++ (pickMaxBy c cs).2)

/- ----------------------------------------------------------------
   census_ftp.py: 2010 SP stem selection.
   ---------------------------------------------------------------- -/

/-- São Paulo state code (2-digit prefix). -/
def SP_STATE_CODE : Nat := 35

/-- São Paulo capital municipality code (7 digits). -/
def SP_CAPITAL_MUNI : Nat := 3550308

/-- Python `str.zfill(w)` on a digit string. -/
def zfill (w : Nat) (s : String) : String :=
  String.mk (List.replicate (w - s.data.length) '0' ++ s.data)

/-- `_stems_for_state_2010` from `census_ftp.py`: every state maps to its
own abbreviation except SP, which is split into `SP_Capital` and
`SP_Exceto_a_Capital` according to which municipalities are requested. -/
def stems_for_state_2010 (uf : String) (munis : List Nat) : List String :=
  let ufU := strUpper uf
  if ufU ≠ "SP" then [ufU]
  else
    let has_capital := munis.contains SP_CAPITAL_MUNI
    let has_interior := munis.any (fun m =>
      ((toString SP_STATE_CODE).data.isPrefixOf (zfill 7 (toString m)).data)
        && (m != SP_CAPITAL_MUNI))
    (if has_capital then ["SP_Capital"] else []) ++
      (if has_interior || !has_capital then ["SP_Exceto_a_Capital"] else [])

lemma strLtB_iff (a b : String) :
    strLtB a b = true ↔ List.Lex (· < ·) a.data b.data := by
  simp [strLtB]

lemma pickMaxBy_mem (cs : List (String × String)) :
    ∀ c, pickMaxBy c cs = c ∨ pickMaxBy c cs ∈ cs := by
  induction cs with
  | nil => intro c; left; rfl
  | cons x xs ih =>
    intro c
    have hstep : pickMaxBy c (x :: xs)
        = pickMaxBy (if strLtB c.1 x.1 then x else c) xs := rfl
    rcases ih (if strLtB c.1 x.1 then x else c) with h | h
    · rw [hstep, h]
      by_cases hlt : strLtB c.1 x.1
      · right; rw [if_pos hlt]; exact List.mem_cons_self x xs
      · left; rw [if_neg hlt]
    · right
      rw [hstep]
      exact List.mem_cons_of_mem x h

lemma pickMaxBy_max (cs : List (String × String)) :
    ∀ c, ∀ x, (x = c ∨ x ∈ cs) →
      ¬ List.Lex (· < ·) (pickMaxBy c cs).1.data x.1.data := by
  induction cs with
  | nil =>
    intro c x hx
    rcases hx with rfl | h
    · exact irrefl _
    · cases h
  | cons y ys ih =>
    intro c x hx
    have hstep : pickMaxBy c (y :: ys)
        = pickMaxBy (if strLtB c.1 y.1 then y else c) ys := rfl
    rw [hstep]
    rcases hx with rfl | hx
    · -- x is the initial accumulator
      by_cases hlt : strLtB x.1 y.1
      · rw [if_pos hlt]
        intro hrc
        have hcy : List.Lex (· < ·) x.1.data y.1.data := (strLtB_iff _ _).mp hlt
        have hry : List.Lex (· < ·) (pickMaxBy y ys).1.data y.1.data :=
          Trans.trans hrc hcy
        exact ih y y (Or.inl rfl) hry
      · rw [if_neg hlt]
        exact ih x x (Or.inl rfl)
    · rcases List.mem_cons.mp hx with rfl | hxs
      · -- x is the head of the remaining candidates
        by_cases hlt : strLtB c.1 x.1
        · rw [if_pos hlt]
          exact ih x x (Or.inl rfl)
        · rw [if_neg hlt]
          intro hrx
          have hncx : ¬ List.Lex (· < ·) c.1.data x.1.data := by
            intro h
            exact hlt ((strLtB_iff _ _).mpr h)
          have ht : List.Lex (· < ·) c.1.data x.1.data ∨ c.1.data = x.1.data ∨
              List.Lex (· < ·) x.1.data c.1.data := trichotomous c.1.data x.1.data
          rcases ht with h | h | h
          · exact hncx h
          · exact ih c c (Or.inl rfl) (h ▸ hrx)
          · exact ih c c (Or.inl rfl) (Trans.trans hrx h)
      · exact ih _ x (Or.inr hxs)

lemma primaryFor_cons (stem g : String) (gs : List String) :
    primaryFor stem (g :: gs) = datedCandidate stem g ++ primaryFor stem gs := rfl

lemma primaryFor_ne_nil (stem : String) (files : List String)
    (h : ∃ f ∈ files, stemDateMatch stem (posixName f) ≠ none) :
    primaryFor stem files ≠ [] := by
  obtain ⟨f, hf, hm⟩ := h
  induction files with
  | nil => cases hf
  | cons g gs ih =>
    rw [primaryFor_cons]
    rcases List.mem_cons.mp hf with rfl | hgs
    · cases hsd : stemDateMatch stem (posixName f) with
      | none => exact absurd hsd hm
      | some d =>
        simp [datedCandidate, hsd]
    · intro hnil
      rcases List.append_eq_nil.mp hnil with ⟨-, h2⟩
      exact ih hgs h2

lemma candidatesFor_of_primary_ne (stem : String) (files : List String)
    (h : primaryFor stem files ≠ []) :
    candidatesFor stem files = primaryFor stem files := by
  have hc1 : cand1For stem files = primaryFor stem files := by
    rw [cand1For, if_neg]
    intro hcontra
    exact h hcontra.1
  rw [candidatesFor, hc1, if_neg]
  intro hcontra
  exact h hcontra.1

/-- C4: whenever at least one listed filename strictly matches
`<STEM>_<8 digits>.zip` (case-insensitively), `_pick_zip_for_stem` returns
`dir_url.rstrip("/") + "/" + fname` for a candidate `fname` of the stem
whose date token is not lexicographically exceeded by the token of any
other candidate. -/
theorem pick_zip_latest (dir_url stem : String) (files : List String)
    (hdated : ∃ f ∈ files, stemDateMatch stem (posixName f) ≠ none) :
    ∃ c : String × String,
      pick_zip_for_stem dir_url stem files
        = .ok (rstripSlash dir_url ++ "/" ++ c.2) ∧
      c ∈ candidatesFor stem files ∧
      ∀ x ∈ candidatesFor stem files,
        ¬ List.Lex (· < ·) c.1.data x.1.data := by
  have hne : candidatesFor stem files ≠ [] := by
    rw [candidatesFor_of_primary_ne stem files (primaryFor_ne_nil stem files hdated)]
    exact primaryFor_ne_nil stem files hdated
  obtain ⟨c, cs, hcc⟩ := List.exists_cons_of_ne_nil hne
  refine ⟨pickMaxBy c cs, ?_, ?_, ?_⟩
  · rw [pick_zip_for_stem, hcc]
  · rw [hcc]
    rcases pickMaxBy_mem cs c with h | h
    · rw [h]; exact List.mem_cons_self c cs
    · exact List.mem_cons_of_mem c h
  · intro x hx
    rw [hcc] at hx
    rcases List.mem_cons.mp hx with rfl | hxs
    · exact pickMaxBy_max cs x x (Or.inl rfl)
    · exact pickMaxBy_max cs c x (Or.inr hxs)

/-- C4 (witness): on the claim's concrete listing, the resolver picks
`STEM_20110615.zip` over `STEM_20100101.zip`, appending it to the
slash-stripped directory URL. -/
theorem pick_zip_latest_witness :
    pick_zip_for_stem "https://host/dir/" "STEM"
        ["STEM_20100101.zip", "STEM_20110615.zip"]
      = .ok "https://host/dir/STEM_20110615.zip" ∧
    (∃ c : String × String,
      pick_zip_for_stem "https://host/dir/" "STEM"
          ["STEM_20100101.zip", "STEM_20110615.zip"]
        = .ok (rstripSlash "https://host/dir/" ++ "/" ++ c.2) ∧
      c ∈ candidatesFor "STEM" ["STEM_20100101.zip", "STEM_20110615.zip"] ∧
      ∀ x ∈ candidatesFor "STEM" ["STEM_20100101.zip", "STEM_20110615.zip"],
        ¬ List.Lex (· < ·) c.1.data x.1.data) :=
  ⟨rfl, pick_zip_latest "https://host/dir/" "STEM"
    ["STEM_20100101.zip", "STEM_20110615.zip"]
    ⟨"STEM_20110615.zip", by decide, by decide⟩⟩

/-- C5: for `uf = "SP"`: requesting the capital and no other SP
municipality yields exactly `["SP_Capital"]`; requesting any non-capital
SP municipality puts `SP_Exceto_a_Capital` in the plan; requesting both
kinds yields both stems. -/
theorem sp_stems_2010 (munis : List Nat) :
    ((SP_CAPITAL_MUNI ∈ munis) →
      (¬ ∃ m ∈ munis, ("35".data.isPrefixOf (zfill 7 (toString m)).data) = true ∧
        m ≠ SP_CAPITAL_MUNI) →
      stems_for_state_2010 "SP" munis = ["SP_Capital"]) ∧
    ((∃ m ∈ munis, ("35".data.isPrefixOf (zfill 7 (toString m)).data) = true ∧
        m ≠ SP_CAPITAL_MUNI) →
      "SP_Exceto_a_Capital" ∈ stems_for_state_2010 "SP" munis) ∧
    ((SP_CAPITAL_MUNI ∈ munis) →
      (∃ m ∈ munis, ("35".data.isPrefixOf (zfill 7 (toString m)).data) = true ∧
        m ≠ SP_CAPITAL_MUNI) →
      stems_for_state_2010 "SP" munis = ["SP_Capital", "SP_Exceto_a_Capital"]) := by
  have hSTC : toString SP_STATE_CODE = "35" := by decide
  have hany : ∀ (h : ∃ m ∈ munis,
      ("35".data.isPrefixOf (zfill 7 (toString m)).data) = true ∧
        m ≠ SP_CAPITAL_MUNI),
      munis.any (fun m =>
        ((toString SP_STATE_CODE).data.isPrefixOf (zfill 7 (toString m)).data)
          && (m != SP_CAPITAL_MUNI)) = true := by
    intro h
    obtain ⟨m, hm, hpre, hne⟩ := h
    rw [List.any_eq_true]
    refine ⟨m, hm, ?_⟩
    rw [hSTC, Bool.and_eq_true, hpre]
    exact ⟨rfl, bne_iff_ne.mpr hne⟩
  have hnany : ∀ (h : ¬ ∃ m ∈ munis,
      ("35".data.isPrefixOf (zfill 7 (toString m)).data) = true ∧
        m ≠ SP_CAPITAL_MUNI),
      munis.any (fun m =>
        ((toString SP_STATE_CODE).data.isPrefixOf (zfill 7 (toString m)).data)
          && (m != SP_CAPITAL_MUNI)) = false := by
    intro h
    rw [Bool.eq_false_iff]
    intro hcontra
    rw [List.any_eq_true] at hcontra
    obtain ⟨m, hm, hb⟩ := hcontra
    rw [hSTC, Bool.and_eq_true] at hb
    exact h ⟨m, hm, hb.1, bne_iff_ne.mp hb.2⟩
  refine ⟨?_, ?_, ?_⟩
  · intro hcap hnint
    have hc : munis.contains SP_CAPITAL_MUNI = true := by simpa using hcap
    simp +decide [stems_for_state_2010, hc, hnany hnint, hcap]
  · intro hex
    cases hcb : munis.contains SP_CAPITAL_MUNI <;>
      simp +decide [stems_for_state_2010, hany hex, hcb]
  · intro hcap hex
    have hc : munis.contains SP_CAPITAL_MUNI = true := by simpa using hcap
    simp +decide [stems_for_state_2010, hc, hany hex, hcap]

/-- C5 (witness): requesting the capital (3550308) together with the
non-capital SP municipality 3509502 yields both stems, capital first. -/
theorem sp_stems_2010_witness :
    SP_CAPITAL_MUNI ∈ [3550308, 3509502] ∧
    (∃ m ∈ [3550308, 3509502],
      ("35".data.isPrefixOf (zfill 7 (toString m)).data) = true ∧
        m ≠ SP_CAPITAL_MUNI) ∧
    stems_for_state_2010 "SP" [3550308, 3509502]
      = ["SP_Capital", "SP_Exceto_a_Capital"] := by
  refine ⟨by decide, ⟨3509502, by decide, by decide, by decide⟩, ?_⟩
  exact (sp_stems_2010 [3550308, 3509502]).2.2 (by decide)
    ⟨3509502, by decide, by decide, by decide⟩

/- ----------------------------------------------------------------
   core/catalog/census.py: the theme catalog and its lookup.
   Only the composite key fields of `CensusThemeSpec` are modelled;
   the payload fields (table ids, column maps, FTP resources,
   extensive/intensive tags) play no role in the lookup contract.
   ---------------------------------------------------------------- -/

/-- The composite key of a `CensusThemeSpec` catalog entry. -/
structure CensusThemeSpec where
  theme : String
  year : Nat
  strategy : String
  deriving DecidableEq

/-- `CENSUS_CATALOG` from `core/catalog/census.py`: the fifteen registered
(theme, year, strategy) entries, in registry order. -/
def CENSUS_CATALOG : List CensusThemeSpec :=
  [⟨"basic", 2010, "bd_table"⟩,
   ⟨"income", 2010, "bd_table"⟩,
   ⟨"age", 2010, "bd_table"⟩,
   ⟨"race", 2010, "bd_table"⟩,
   ⟨"basic", 2010, "ftp_csv"⟩,
   ⟨"income", 2010, "ftp_csv"⟩,
   ⟨"race", 2010, "ftp_csv"⟩,
   ⟨"age", 2010, "ftp_csv"⟩,
   ⟨"basic", 2022, "bd_table"⟩,
   ⟨"age", 2022, "bd_table"⟩,
   ⟨"race", 2022, "bd_table"⟩,
   ⟨"basic", 2022, "ftp_csv"⟩,
   ⟨"income", 2022, "ftp_csv"⟩,
   ⟨"race", 2022, "ftp_csv"⟩,
   ⟨"age", 2022, "ftp_csv"⟩]

/-- `_CATALOG_INDEX[(theme, year, strategy)]`: a Python dict comprehension
keeps the last entry with a given key. -/
def catalogIndexFind (theme : String) (year : Nat) (strategy : String) :
    Option CensusThemeSpec :=
  (CENSUS_CATALOG.filter (fun s =>
    s.theme = theme ∧ s.year = year ∧ s.strategy = strategy)).getLast?

/-- `sorted({t for (t, y, s) in _CATALOG_INDEX if y == year and s == strategy})`:
the themes registered for a (year, strategy) pair, deduplicated and sorted. -/
def availableThemes (year : Nat) (strategy : String) : List String :=
  (((CENSUS_CATALOG.filter (fun s => s.year = year ∧ s.strategy = strategy)).map
      (fun s => s.theme)).dedup).mergeSort (fun a b => !(strLtB b a))

/-- The data carried by the `ValueError` raised on a failed lookup: the
full requested key and the themes registered for the (year, strategy)
pair (both error-message variants of the source name the key; the second
states that no theme is registered, i.e. the empty list). -/
structure SpecNotFound where
  theme : String
  year : Nat
  strategy : String
  available : List String
  deriving DecidableEq

/-- `get_census_spec` from `core/catalog/census.py`. -/
def get_census_spec (year : Nat) (theme strategy : String) :
    Except SpecNotFound CensusThemeSpec :=
  match catalogIndexFind theme year strategy with
  | some spec => .ok spec
  | none =>
    .error { theme := theme, year := year, strategy := strategy,
             available := availableThemes year strategy }

/-- C6: a successful lookup only returns a catalog entry registered under
exactly the requested key; an unregistered key yields an error datum that
names the full requested key and carries exactly the themes registered for
the (year, strategy) pair — a possibly empty list. -/
theorem get_census_spec_contract (year : Nat) (theme strategy : String) :
    (∀ spec, get_census_spec year theme strategy = .ok spec →
      spec ∈ CENSUS_CATALOG ∧ spec.theme = theme ∧ spec.year = year ∧
        spec.strategy = strategy) ∧
    ((¬ ∃ spec ∈ CENSUS_CATALOG, spec.theme = theme ∧ spec.year = year ∧
        spec.strategy = strategy) →
      ∃ e, get_census_spec year theme strategy = .error e ∧
        e.theme = theme ∧ e.year = year ∧ e.strategy = strategy ∧
        e.available = availableThemes year strategy) ∧
    (∀ t, t ∈ availableThemes year strategy ↔
      ∃ spec ∈ CENSUS_CATALOG, spec.year = year ∧ spec.strategy = strategy ∧
        spec.theme = t) := by
  have hlast : ∀ {l : List CensusThemeSpec} {x : CensusThemeSpec},
      l.getLast? = some x → x ∈ l := by
    intro l x h
    obtain ⟨hne, heq⟩ := List.mem_getLast?_eq_getLast (Option.mem_def.mpr h)
    exact heq ▸ List.getLast_mem hne
  refine ⟨?_, ?_, ?_⟩
  · intro spec hspec
    unfold get_census_spec at hspec
    cases hfind : catalogIndexFind theme year strategy with
    | none => rw [hfind] at hspec; cases hspec
    | some s =>
      rw [hfind] at hspec
      rw [Except.ok.injEq] at hspec
      subst hspec
      have hmem : s ∈ CENSUS_CATALOG.filter (fun s =>
          s.theme = theme ∧ s.year = year ∧ s.strategy = strategy) :=
        hlast hfind
      have h1 := List.mem_of_mem_filter hmem
      have h2 := List.of_mem_filter hmem
      simp only [decide_eq_true_eq] at h2
      exact ⟨h1, h2.1, h2.2.1, h2.2.2⟩
  · intro hnone
    have hfind : catalogIndexFind theme year strategy = none := by
      rw [catalogIndexFind, List.getLast?_eq_none_iff]
      rw [List.filter_eq_nil_iff]
      intro s hs
      simp only [decide_eq_true_eq]
      intro hcontra
      exact hnone ⟨s, hs, hcontra⟩
    refine ⟨{ theme := theme, year := year, strategy := strategy,
              available := availableThemes year strategy }, ?_, rfl, rfl, rfl, rfl⟩
    unfold get_census_spec
    rw [hfind]
  · intro t
    constructor
    · intro ht
      rw [availableThemes, List.mem_mergeSort, List.mem_dedup] at ht
      simp only [List.mem_map] at ht
      obtain ⟨s, hs, rfl⟩ := ht
      have h1 := List.mem_of_mem_filter hs
      have h2 := List.of_mem_filter hs
      simp only [decide_eq_true_eq] at h2
      exact ⟨s, h1, h2.1, h2.2, rfl⟩
    · intro ⟨s, hs, hy, hst, hth⟩
      rw [availableThemes, List.mem_mergeSort, List.mem_dedup]
      simp only [List.mem_map]
      refine ⟨s, List.mem_filter.mpr ⟨hs, ?_⟩, hth⟩
      simp only [decide_eq_true_eq]
      exact ⟨hy, hst⟩

/-- C6 (witness): the claim's scenario: looking up income for 1999 under
the warehouse strategy (`bd_table`) fails with an error naming the key
`("income", 1999, "bd_table")` and carrying the empty list of themes
registered for 1999 under that strategy. -/
theorem get_census_spec_contract_witness :
    (∃ e, get_census_spec 1999 "income" "bd_table" = .error e ∧
      e.theme = "income" ∧ e.year = 1999 ∧ e.strategy = "bd_table" ∧
      e.available = availableThemes 1999 "bd_table") ∧
    availableThemes 1999 "bd_table" = [] := by
  have havail : availableThemes 1999 "bd_table" = [] := by
    have h : (CENSUS_CATALOG.filter (fun s =>
        s.year = 1999 ∧ s.strategy = "bd_table")) = [] := by decide
    rw [availableThemes, h]
    simp [List.mergeSort_nil]
  refine ⟨(get_census_spec_contract 1999 "income" "bd_table").2.1 ?_, havail⟩
  intro ⟨s, hs, hcontra⟩
  fin_cases hs <;> simp_all

/- ----------------------------------------------------------------
   census_ftp.py: `_resolve_usecols`.
   ---------------------------------------------------------------- -/

/-- Python `str.strip()`: remove leading and trailing whitespace. -/
def strStrip (s : String) : String :=
  String.mk (((s.data.dropWhile Char.isWhitespace).reverse.dropWhile
    Char.isWhitespace).reverse)

/-- The normalised lookup key of `_resolve_usecols`:
`str(c).strip().lower()`. -/
def colKey (c : String) : String := strLower (strStrip c)

/-- `header_map.get(key)` for
`header_map = {str(c).strip().lower(): c for c in header}`: a Python dict
comprehension keeps the last column with a given key. -/
def headerActual (header : List String) (c : String) : Option String :=
  (header.filter (fun h => colKey h = colKey c)).getLast?

/-- A desired column that `_resolve_usecols` reports as missing: no header
column shares its key, or the winning header column is the empty string
(Python `if not actual` is also true for `""`). -/
def isMissingCol (header : List String) (c : String) : Prop :=
  headerActual header c = none ∨ headerActual header c = some ""

instance (header : List String) (c : String) :
    Decidable (isMissingCol header c) := by
  unfold isMissingCol
  infer_instance

/-- The accumulation loop of `_resolve_usecols` over the desired columns;
`resolved` doubles as the `seen` set, exactly as in the source where every
appended name is also added to `seen`. -/
def resolveLoop (header : List String) :
    List String → List String → List String → List String × List String
  | [], resolved, missing => (resolved, missing)
  | c :: cs, resolved, missing =>
    match headerActual header c with
    | none => resolveLoop header cs resolved (missing ++ [c])
    | some actual =>
      if actual = "" then resolveLoop header cs resolved (missing ++ [c])
      else if actual ∈ resolved then resolveLoop header cs resolved missing
      else resolveLoop header cs (resolved ++ [actual]) missing

/-- `_resolve_usecols` from `census_ftp.py`: `none` in the first component
means "no usecols restriction" (pandas then loads every header column);
the second component is the missing-columns list reported in the warning. -/
def resolve_usecols (header : List String) (desired : Option (List String)) :
    Option (List String) × List String :=
  match desired with
  | none => (none, [])
  | some [] => (none, [])
  | some ds =>
    let rm := resolveLoop header ds [] []
    (if rm.1 = [] then none else some rm.1, rm.2)

lemma headerActual_mem {header : List String} {c a : String}
    (h : headerActual header c = some a) : a ∈ header := by
  rw [headerActual] at h
  obtain ⟨hne, heq⟩ := List.mem_getLast?_eq_getLast (Option.mem_def.mpr h)
  exact List.mem_of_mem_filter (heq ▸ List.getLast_mem hne)

lemma headerActual_none_not_mem {header : List String} {c : String}
    (h : headerActual header c = none) : c ∉ header := by
  intro hc
  rw [headerActual, List.getLast?_eq_none_iff, List.filter_eq_nil_iff] at h
  exact h c hc (by simp)

lemma resolveLoop_cons (header : List String) (d : String)
    (cs res mis : List String) :
    resolveLoop header (d :: cs) res mis
      = match headerActual header d with
        | none => resolveLoop header cs res (mis ++ [d])
        | some actual =>
          if actual = "" then resolveLoop header cs res (mis ++ [d])
          else if actual ∈ res then resolveLoop header cs res mis
          else resolveLoop header cs (res ++ [actual]) mis := rfl

lemma resolveLoop_cons_none (header : List String) (d : String)
    (cs res mis : List String) (h : headerActual header d = none) :
    resolveLoop header (d :: cs) res mis
      = resolveLoop header cs res (mis ++ [d]) := by
  rw [resolveLoop_cons, h]

lemma resolveLoop_cons_some (header : List String) (d a : String)
    (cs res mis : List String) (h : headerActual header d = some a) :
    resolveLoop header (d :: cs) res mis
      = if a = "" then resolveLoop header cs res (mis ++ [d])
        else if a ∈ res then resolveLoop header cs res mis
        else resolveLoop header cs (res ++ [a]) mis := by
  rw [resolveLoop_cons, h]

lemma resolveLoop_missing_iff (header : List String) :
    ∀ (ds res mis : List String) (c : String),
      c ∈ (resolveLoop header ds res mis).2 ↔
        c ∈ mis ∨ (c ∈ ds ∧ isMissingCol header c) := by
  intro ds
  induction ds with
  | nil =>
    intro res mis c
    simp [resolveLoop]
  | cons d cs ih =>
    intro res mis c
    cases hd : headerActual header d with
    | none =>
      rw [resolveLoop_cons_none header d cs res mis hd, ih]
      simp only [List.mem_append, List.mem_singleton, List.mem_cons,
          List.not_mem_nil, or_false]
      constructor
      · rintro ((h | rfl) | ⟨hcs, hmiss⟩)
        · exact Or.inl h
        · exact Or.inr ⟨Or.inl rfl, Or.inl hd⟩
        · exact Or.inr ⟨Or.inr hcs, hmiss⟩
      · rintro (h | ⟨(rfl | hcs), hmiss⟩)
        · exact Or.inl (Or.inl h)
        · exact Or.inl (Or.inr rfl)
        · exact Or.inr ⟨hcs, hmiss⟩
    | some a =>
      rw [resolveLoop_cons_some header d a cs res mis hd]
      by_cases ha : a = ""
      · subst ha
        rw [if_pos rfl, ih]
        simp only [List.mem_append, List.mem_singleton, List.mem_cons,
          List.not_mem_nil, or_false]
        constructor
        · rintro ((h | rfl) | ⟨hcs, hmiss⟩)
          · exact Or.inl h
          · exact Or.inr ⟨Or.inl rfl, Or.inr hd⟩
          · exact Or.inr ⟨Or.inr hcs, hmiss⟩
        · rintro (h | ⟨(rfl | hcs), hmiss⟩)
          · exact Or.inl (Or.inl h)
          · exact Or.inl (Or.inr rfl)
          · exact Or.inr ⟨hcs, hmiss⟩
      · rw [if_neg ha]
        have hnotmiss : ¬ isMissingCol header d := by
          rintro (h | h)
          · rw [hd] at h; cases h
          · rw [hd] at h
            rw [Option.some.injEq] at h
            exact ha h
        have hgoal : ∀ res2, (c ∈ (resolveLoop header cs res2 mis).2 ↔
            c ∈ mis ∨ (c ∈ d :: cs ∧ isMissingCol header c)) := by
          intro res2
          rw [ih]
          simp only [List.mem_cons]
          constructor
          · rintro (h | ⟨hcs, hmiss⟩)
            · exact Or.inl h
            · exact Or.inr ⟨Or.inr hcs, hmiss⟩
          · rintro (h | ⟨(rfl | hcs), hmiss⟩)
            · exact Or.inl h
            · exact absurd hmiss hnotmiss
            · exact Or.inr ⟨hcs, hmiss⟩
        by_cases hmem : a ∈ res
        · rw [if_pos hmem]; exact hgoal res
        · rw [if_neg hmem]; exact hgoal (res ++ [a])

lemma resolveLoop_resolved_grows (header : List String) :
    ∀ (ds res mis : List String) (x : String),
      x ∈ res → x ∈ (resolveLoop header ds res mis).1 := by
  intro ds
  induction ds with
  | nil => intro res mis x hx; exact hx
  | cons d cs ih =>
    intro res mis x hx
    cases hd : headerActual header d with
    | none =>
      rw [resolveLoop_cons_none header d cs res mis hd]
      exact ih _ _ x hx
    | some a =>
      rw [resolveLoop_cons_some header d a cs res mis hd]
      by_cases ha : a = ""
      · rw [if_pos ha]; exact ih _ _ x hx
      · rw [if_neg ha]
        by_cases hmem : a ∈ res
        · rw [if_pos hmem]; exact ih _ _ x hx
        · rw [if_neg hmem]
          exact ih _ _ x (List.mem_append_left _ hx)

lemma resolveLoop_resolved_of_match (header : List String) :
    ∀ (ds res mis : List String) (c a : String),
      c ∈ ds → headerActual header c = some a → a ≠ "" →
      a ∈ (resolveLoop header ds res mis).1 := by
  intro ds
  induction ds with
  | nil => intro res mis c a hc; cases hc
  | cons d cs ih =>
    intro res mis c a hc hca hane
    rcases List.mem_cons.mp hc with rfl | hcs
    · rw [resolveLoop_cons_some header c a cs res mis hca, if_neg hane]
      by_cases hmem : a ∈ res
      · rw [if_pos hmem]
        exact resolveLoop_resolved_grows header cs res mis a hmem
      · rw [if_neg hmem]
        exact resolveLoop_resolved_grows header cs (res ++ [a]) mis a
          (List.mem_append_right _ (List.mem_singleton.mpr rfl))
    · cases hd : headerActual header d with
      | none =>
        rw [resolveLoop_cons_none header d cs res mis hd]
        exact ih _ _ c a hcs hca hane
      | some b =>
        rw [resolveLoop_cons_some header d b cs res mis hd]
        by_cases hb : b = ""
        · rw [if_pos hb]; exact ih _ _ c a hcs hca hane
        · rw [if_neg hb]
          by_cases hmem : b ∈ res
          · rw [if_pos hmem]; exact ih _ _ c a hcs hca hane
          · rw [if_neg hmem]; exact ih _ _ c a hcs hca hane

lemma resolveLoop_resolved_in_header (header : List String) :
    ∀ (ds res mis : List String), (∀ x ∈ res, x ∈ header) →
      ∀ a ∈ (resolveLoop header ds res mis).1, a ∈ header := by
  intro ds
  induction ds with
  | nil => intro res mis hres a ha; exact hres a ha
  | cons d cs ih =>
    intro res mis hres a ha
    cases hd : headerActual header d with
    | none =>
      rw [resolveLoop_cons_none header d cs res mis hd] at ha
      exact ih _ _ hres a ha
    | some b =>
      rw [resolveLoop_cons_some header d b cs res mis hd] at ha
      by_cases hb : b = ""
      · rw [if_pos hb] at ha; exact ih _ _ hres a ha
      · rw [if_neg hb] at ha
        by_cases hmem : b ∈ res
        · rw [if_pos hmem] at ha; exact ih _ _ hres a ha
        · rw [if_neg hmem] at ha
          refine ih _ _ ?_ a ha
          intro x hx
          rcases List.mem_append.mp hx with hx | hx
          · exact hres x hx
          · rw [List.mem_singleton.mp hx]
            exact headerActual_mem hd

/-- C7: `_resolve_usecols` matches desired columns against the header
case-insensitively (after stripping); every desired column without a match
lands in the reported missing list and never among the loaded columns,
every desired column with a (non-empty) match has its actual header
spelling among the loaded columns, the loaded columns are all header
columns, and the function is total — unmatched columns only shrink the
selection, they never abort the member fetch. -/
theorem resolve_usecols_contract (header ds : List String) (hne : ds ≠ []) :
    (∀ c ∈ ds, c ∈ (resolve_usecols header (some ds)).2 ↔
        isMissingCol header c) ∧
    (∀ c ∈ ds, ∀ a, headerActual header c = some a → a ≠ "" →
      ∃ l, (resolve_usecols header (some ds)).1 = some l ∧ a ∈ l) ∧
    (∀ l, (resolve_usecols header (some ds)).1 = some l →
      ∀ a ∈ l, a ∈ header) ∧
    (∀ c, headerActual header c = none → c ∉ header) := by
  have hds : resolve_usecols header (some ds)
      = (if (resolveLoop header ds [] []).1 = [] then none
          else some (resolveLoop header ds [] []).1,
         (resolveLoop header ds [] []).2) := by
    cases ds with
    | nil => exact absurd rfl hne
    | cons d cs => rfl
  refine ⟨?_, ?_, ?_, fun c h => headerActual_none_not_mem h⟩
  · intro c hc
    rw [hds]
    simp only
    rw [resolveLoop_missing_iff]
    simp only [List.not_mem_nil, false_or]
    exact ⟨fun h => h.2, fun h => ⟨hc, h⟩⟩
  · intro c hc a hca hane
    have hmem := resolveLoop_resolved_of_match header ds [] [] c a hc hca hane
    rw [hds]
    simp only
    rw [if_neg (by intro h; rw [h] at hmem; cases hmem)]
    exact ⟨_, rfl, hmem⟩
  · intro l hl a hal
    rw [hds] at hl
    simp only at hl
    by_cases hres : (resolveLoop header ds [] []).1 = []
    · rw [if_pos hres] at hl; cases hl
    · rw [if_neg hres] at hl
      rw [Option.some.injEq] at hl
      subst hl
      exact resolveLoop_resolved_in_header header ds [] []
        (by intro x hx; cases hx) a hal

/-- C7 (witness): for the header `["Cod_setor", "V002"]` and desired
columns `["cod_SETOR", "v002", "v999"]`, resolution loads the actual
spellings `Cod_setor` and `V002` and reports only `v999` missing. -/
theorem resolve_usecols_contract_witness :
    resolve_usecols ["Cod_setor", "V002"] (some ["cod_SETOR", "v002", "v999"])
      = (some ["Cod_setor", "V002"], ["v999"]) ∧
    ("v999" ∈ (resolve_usecols ["Cod_setor", "V002"]
        (some ["cod_SETOR", "v002", "v999"])).2 ↔
      isMissingCol ["Cod_setor", "V002"] "v999") ∧
    (∃ l, (resolve_usecols ["Cod_setor", "V002"]
        (some ["cod_SETOR", "v002", "v999"])).1 = some l ∧ "Cod_setor" ∈ l) := by
  have h := resolve_usecols_contract ["Cod_setor", "V002"]
    ["cod_SETOR", "v002", "v999"] (by decide)
  refine ⟨rfl, h.1 "v999" (by decide), ?_⟩
  exact h.2.1 "cod_SETOR" (by decide) "Cod_setor" (by decide) (by decide)

/- ----------------------------------------------------------------
   census_ftp.py: id standardization and municipality row filter
   (the `id_setor_censitario` branch of `fetch_census_ftp`).
   ---------------------------------------------------------------- -/

/-- Python `s[:n]` / pandas `.str[:7]`. -/
def strTake (s : String) (n : Nat) : String := String.mk (s.data.take n)

/-- `df_chunk["id_setor_censitario"].astype(str).str.strip().str.zfill(15)`
applied to one raw id. -/
def standardizeId (raw : String) : String := zfill 15 (strStrip raw)

/-- The id branch of `fetch_census_ftp`: standardize each id, then keep
only rows whose 7-character prefix is in
`{str(m).zfill(7) for m in munis}`. -/
def filterChunkIds (rawIds : List String) (munis : List Nat) : List String :=
  (rawIds.map standardizeId).filter
    (fun id => (munis.map (fun m => zfill 7 (toString m))).contains
      (strTake id 7))

lemma zfill_length (w : Nat) (s : String) :
    (zfill w s).data.length = max w s.data.length := by
  show (List.replicate (w - s.data.length) '0' ++ s.data).length = _
  rw [List.length_append, List.length_replicate]
  omega

/-- C8 (counterexample): a 16-character raw id survives `zfill(15)`
unchanged, and when its first 7 characters match a requested municipality
the row is kept with an id of length 16, not 15. -/
theorem fetch_id_filter_counterexample :
    "1234567890123456" ∈ filterChunkIds ["1234567890123456"] [1234567] ∧
    ("1234567890123456" : String).data.length ≠ 15 := by
  constructor
  · decide
  · decide

/-- C8 (amended): every id kept by the municipality filter is the
strip-and-zfill standardization of some raw id of the chunk, its
7-character prefix equals the zero-padded code of one of the requested
municipalities (rows of other municipalities are dropped), and it has
length exactly 15 whenever the stripped raw id has at most 15 characters
(real census ids; `zfill` never truncates longer strings). -/
theorem fetch_id_filter_amended (rawIds : List String) (munis : List Nat) :
    ∀ id ∈ filterChunkIds rawIds munis,
      (∃ m ∈ munis, strTake id 7 = zfill 7 (toString m)) ∧
      (∃ raw ∈ rawIds, id = standardizeId raw ∧
        ((strStrip raw).data.length ≤ 15 → id.data.length = 15)) := by
  intro id hid
  rw [filterChunkIds, List.mem_filter] at hid
  obtain ⟨hmem, hpred⟩ := hid
  constructor
  · have : strTake id 7 ∈ munis.map (fun m => zfill 7 (toString m)) := by
      simpa using hpred
    obtain ⟨m, hm, heq⟩ := List.mem_map.mp this
    exact ⟨m, hm, heq.symm⟩
  · obtain ⟨raw, hraw, heq⟩ := List.mem_map.mp hmem
    refine ⟨raw, hraw, heq.symm, ?_⟩
    intro hlen
    rw [← heq, standardizeId, zfill_length]
    omega

/-- C8 (witness): the amended theorem at the raw id `"1234"` with
requested municipality 0: the kept id is `"000000000001234"` (length 15),
zero-padded, with prefix `"0000000"`. -/
theorem fetch_id_filter_witness :
    filterChunkIds ["1234"] [0] = ["000000000001234"] ∧
    ((∃ m ∈ [0], strTake "000000000001234" 7 = zfill 7 (toString m)) ∧
      (∃ raw ∈ ["1234"], "000000000001234" = standardizeId raw ∧
        ((strStrip raw).data.length ≤ 15 →
          ("000000000001234" : String).data.length = 15))) := by
  refine ⟨by decide, ?_⟩
  exact fetch_id_filter_amended ["1234"] [0] "000000000001234" (by decide)

/- ----------------------------------------------------------------
   infra/storage/cache.py: `cached_extract_zip` zip-slip validation.
   A directory is a list of path components; `(destination / member)
   .resolve()` is modelled by component-wise resolution, and
   `is_relative_to(destination)` by a component-prefix test.
   ---------------------------------------------------------------- -/

/-- POSIX path resolution of the member components against a normalized
absolute base: `..` pops a component, `.` and empty components vanish. -/
def resolveComps : List String → List String → List String
  | base, [] => base
  | base, comp :: rest =>
    if comp = "" ∨ comp = "." then resolveComps base rest
    else if comp = ".." then resolveComps base.dropLast rest
    else resolveComps (base ++ [comp]) rest

/-- `(destination / member).resolve()`: an absolute member replaces the
base (Python `Path` join semantics), a relative one is resolved under
it. -/
def joinResolve (dest : List String) (member : String) : List String :=
  let comps := (splitChar '/' member.data).map (fun l => String.mk l)
  if member.data.head? = some '/' then resolveComps [] comps
  else resolveComps dest comps

/-- `not member_path.is_relative_to(destination)`. -/
def escapesDest (dest : List String) (member : String) : Bool :=
  !(dest.isPrefixOf (joinResolve dest member))

/-- `cached_extract_zip` from `infra/storage/cache.py`, on a fresh empty
destination: the loop validates every member before `extractall`, so the
first escaping member aborts the call with nothing extracted; otherwise
all members are extracted. -/
def cached_extract_zip (dest : List String) (members : List String) :
    Except String (List String) :=
  match members.find? (fun m => escapesDest dest m) with
  | some m => .error m
  | none => .ok members

/-- The files an extraction call wrote into the destination: none when it
raised. -/
def extractedFiles : Except String (List String) → List String
  | .error _ => []
  | .ok l => l

lemma cached_extract_zip_eq (dest : List String) (members : List String) :
    cached_extract_zip dest members
      = match members.find? (fun m => escapesDest dest m) with
        | some m => .error m
        | none => .ok members := rfl

/-- C9: if any member's resolved path escapes the destination, extraction
fails with an error naming an escaping member and extracts nothing (the
destination stays empty); if every member resolves inside the
destination, all members are extracted normally. -/
theorem cached_extract_zip_safety (dest : List String) (members : List String) :
    ((∃ m ∈ members, escapesDest dest m = true) →
      (∃ m ∈ members, cached_extract_zip dest members = .error m ∧
        escapesDest dest m = true) ∧
      extractedFiles (cached_extract_zip dest members) = []) ∧
    ((∀ m ∈ members, escapesDest dest m = false) →
      cached_extract_zip dest members = .ok members) := by
  constructor
  · intro hex
    obtain ⟨m, hm⟩ : ∃ m, members.find? (fun m => escapesDest dest m) = some m := by
      cases hf : members.find? (fun m => escapesDest dest m) with
      | none =>
        rw [List.find?_eq_none] at hf
        obtain ⟨m, hmem, he⟩ := hex
        exact absurd he (by simpa using hf m hmem)
      | some m => exact ⟨m, rfl⟩
    have hmem := List.mem_of_find?_eq_some hm
    have hesc := List.find?_some hm
    refine ⟨⟨m, hmem, ?_, hesc⟩, ?_⟩
    · rw [cached_extract_zip_eq, hm]
    · rw [cached_extract_zip_eq, hm]
      rfl
  · intro hall
    have hnone : members.find? (fun m => escapesDest dest m) = none :=
      List.find?_eq_none.mpr (fun x hx => by simp [hall x hx])
    rw [cached_extract_zip_eq, hnone]

/-- C9 (witness): under destination `/tmp/out`, the archive
`["data/file.csv", "../evil.sh"]` is rejected (the traversal member
resolves to `/tmp/evil.sh`) with nothing extracted, while the archive
`["data/file.csv", "notes.txt"]` extracts fully. -/
theorem cached_extract_zip_safety_witness :
    (∃ m ∈ ["data/file.csv", "../evil.sh"],
      cached_extract_zip ["tmp", "out"] ["data/file.csv", "../evil.sh"]
        = .error m ∧
      escapesDest ["tmp", "out"] m = true) ∧
    extractedFiles (cached_extract_zip ["tmp", "out"]
      ["data/file.csv", "../evil.sh"]) = [] ∧
    cached_extract_zip ["tmp", "out"] ["data/file.csv", "notes.txt"]
      = .ok ["data/file.csv", "notes.txt"] := by
  have h1 := (cached_extract_zip_safety ["tmp", "out"]
    ["data/file.csv", "../evil.sh"]).1
    ⟨"../evil.sh", by decide, by decide⟩
  have h2 := (cached_extract_zip_safety ["tmp", "out"]
    ["data/file.csv", "notes.txt"]).2 (by decide)
  exact ⟨h1.1, h1.2, h2⟩

/- ----------------------------------------------------------------
   census_ftp.py: overall control flow of `fetch_census_ftp`.
   The network/zip/parse effects of one plan entry are abstracted by
   their outcome: a per-stem failure, or a list of per-member
   outcomes (a parse failure, or the parsed and filtered rows).
   ---------------------------------------------------------------- -/

/-- Rows contributed by one CSV member: a parse failure is caught,
logged, and skipped (`except ... continue`). -/
def memberRows : Except String Table → Table
  | .error _ => []
  | .ok rows => rows

/-- Rows contributed by one fetch-plan entry: a download/zip failure is
caught, logged, and skipped (`except ... continue`); otherwise the rows of
all matched members are concatenated (empty chunks are never appended,
which changes nothing about the concatenation). -/
def entryRows : Except String (List (Except String Table)) → Table
  | .error _ => []
  | .ok members => (members.map memberRows).flatten

/-- The final result of `fetch_census_ftp`: the concatenation of all
chunks, an empty table when `dfs` stayed empty (`return pd.DataFrame()`);
no exception propagates out of the fetch loop. -/
def fetch_census_ftp_rows
    (plan : List (Except String (List (Except String Table)))) : Table :=
  (plan.map entryRows).flatten

/-- C10: when every entry of the fetch plan fails or every member of every
successful entry fails or is filtered to zero rows, `fetch_census_ftp`
returns the empty table — total failure surfaces as an empty result, not
as an exception (the function is total on every plan). -/
theorem fetch_census_ftp_empty_on_total_failure
    (plan : List (Except String (List (Except String Table))))
    (h : ∀ e ∈ plan, (∃ msg, e = .error msg) ∨
      ∃ members, e = .ok members ∧ ∀ m ∈ members,
        (∃ msg, m = .error msg) ∨ m = .ok ([] : Table)) :
    fetch_census_ftp_rows plan = [] := by
  rw [fetch_census_ftp_rows, List.flatten_eq_nil_iff]
  intro rows hrows
  obtain ⟨e, he, rfl⟩ := List.mem_map.mp hrows
  rcases h e he with ⟨msg, rfl⟩ | ⟨members, rfl, hmem⟩
  · rfl
  · show (members.map memberRows).flatten = []
    rw [List.flatten_eq_nil_iff]
    intro rows2 hrows2
    obtain ⟨m, hm, rfl⟩ := List.mem_map.mp hrows2
    rcases hmem m hm with ⟨msg, rfl⟩ | rfl
    · rfl
    · rfl

/-- C10 (witness): a plan whose first entry failed to download and whose
second entry has one unparseable member and one member filtered to zero
rows yields the empty table. -/
theorem fetch_census_ftp_empty_witness :
    fetch_census_ftp_rows
      [.error "HTTP 404",
       .ok [.error "no matching member", .ok ([] : Table)]] = [] := by
  apply fetch_census_ftp_empty_on_total_failure
  intro e he
  rcases List.mem_cons.mp he with rfl | he2
  · exact Or.inl ⟨"HTTP 404", rfl⟩
  · rcases List.mem_cons.mp he2 with rfl | he3
    · refine Or.inr ⟨_, rfl, ?_⟩
      intro m hm
      rcases List.mem_cons.mp hm with rfl | hm2
      · exact Or.inl ⟨"no matching member", rfl⟩
      · rcases List.mem_cons.mp hm2 with rfl | hm3
        · exact Or.inr rfl
        · cases hm3
    · cases he3

/- ----------------------------------------------------------------
   core/geo/h3.py: `interpolate_area_weighted`.
   ---------------------------------------------------------------- -/

/-- One source tract entering areal interpolation: the value of one
extensive variable and, per target cell index, the area of the tract's
intersection with that cell. -/
structure SourceZone where
  value : ℚ
  overlaps : List ℚ

/-- Modelled from the spec: `interpolate_area_weighted` (core/geo/h3.py)
passes `allocate_total=preserve_totals` to
`tobler.area_weighted.area_interpolate`, an external library whose code is
not under src/.  Per the spec, total preservation distributes each
source's full value over the target cells in proportion to intersection
area, normalizing by the source's total intersected area rather than its
own area (compensating for grid cells falling partly outside any source
tract).  A source with zero total intersection contributes nothing. -/
def allocWeight (s : SourceZone) (j : Nat) : ℚ :=
  if s.overlaps.sum = 0 then 0 else s.overlaps.getD j 0 / s.overlaps.sum

/-- Modelled from the spec: the reallocated value of one extensive
variable on each of the `t` target cells, under
`preserve_totals=True`. -/
def interpolate_area_weighted (sources : List SourceZone) (t : Nat) :
    List ℚ :=
  (List.range t).map
    (fun j => (sources.map (fun s => s.value * allocWeight s j)).sum)

lemma sum_range_getD (l : List ℚ) :
    ∀ t, l.length ≤ t →
      ((List.range t).map (fun j => l.getD j 0)).sum = l.sum := by
  induction l with
  | nil =>
    intro t ht
    have hz : ∀ j : Nat, ([] : List ℚ).getD j 0 = 0 := fun j => rfl
    simp [hz]
  | cons x xs ih =>
    intro t ht
    cases t with
    | zero => simp at ht
    | succ t2 =>
      rw [List.range_succ_eq_map, List.map_cons, List.sum_cons, List.map_map]
      have hcomp : ((fun j => (x :: xs).getD j 0) ∘ Nat.succ)
          = (fun j => xs.getD j 0) := by
        funext j; rfl
      rw [hcomp, ih t2 (Nat.le_of_succ_le_succ (by simpa using ht))]
      rfl

lemma source_total (s : SourceZone) (t : Nat) (hlen : s.overlaps.length ≤ t)
    (hnz : s.overlaps.sum ≠ 0 ∨ s.value = 0) :
    ((List.range t).map (fun j => s.value * allocWeight s j)).sum = s.value := by
  rcases hnz with hnz | hz
  · have hfun : (fun j => s.value * allocWeight s j)
        = (fun j => (s.value / s.overlaps.sum) * s.overlaps.getD j 0) := by
      funext j
      rw [allocWeight, if_neg hnz]
      ring
    rw [hfun, List.sum_map_mul_left, sum_range_getD s.overlaps t hlen,
      div_mul_cancel₀ s.value hnz]
  · simp [hz]

lemma interpolate_total_swap (sources : List SourceZone) (t : Nat) :
    (interpolate_area_weighted sources t).sum
      = (sources.map (fun s =>
          ((List.range t).map (fun j => s.value * allocWeight s j)).sum)).sum := by
  rw [interpolate_area_weighted]
  induction sources with
  | nil => simp
  | cons s ss ih =>
    simp only [List.map_cons, List.sum_cons]
    rw [← ih, List.sum_map_add]

/-- C3: under total preservation, for every target grid that covers every
overlap entry and every source tract that either intersects the grid or
carries a zero value, the reallocated values over all destination cells
sum exactly (in exact arithmetic, hence within any floating-point
tolerance) to the sum of the variable over all source tracts. -/
theorem interpolate_preserve_totals (sources : List SourceZone) (t : Nat)
    (h : ∀ s ∈ sources, s.overlaps.length ≤ t ∧
      (s.overlaps.sum ≠ 0 ∨ s.value = 0)) :
    (interpolate_area_weighted sources t).sum
      = (sources.map (fun s => s.value)).sum := by
  rw [interpolate_total_swap]
  exact congrArg List.sum (List.map_congr_left
    (fun s hs => source_total s t (h s hs).1 (h s hs).2))

/-- Two concrete source tracts against two target cells: tract one
(value 10) overlaps both cells with areas 2 and 3, tract two (value 5)
only the first with area 1. -/
def exSources : List SourceZone := [⟨10, [2, 3]⟩, ⟨5, [1, 0]⟩]

/-- C3 (witness): the preservation theorem applied to the concrete
two-source, two-cell instance: both grand totals equal 15. -/
theorem interpolate_preserve_totals_witness :
    (interpolate_area_weighted exSources 2).sum = 15 ∧
    (exSources.map (fun s => s.value)).sum = 15 := by
  have h := interpolate_preserve_totals exSources 2 ?hyp
  case hyp =>
    intro s hs
    fin_cases hs
    · exact ⟨by norm_num, Or.inl (by norm_num)⟩
    · exact ⟨by norm_num, Or.inl (by norm_num)⟩
  have hrhs : (exSources.map (fun s => s.value)).sum = 15 := by
    norm_num [exSources]
  exact ⟨h.trans hrhs, hrhs⟩

end AtlasBR
